import Mathlib

/-!
# Verification of the lean-spec-desktop spec engine

Shallow embedding of the `src-tauri/src/specs` subsystem of the
`lean-spec-desktop` repository: frontmatter parsing, spec loading,
reverse-dependency computation, validation, statistics, and the textual
frontmatter rewrite used by the status-update command.

Modelling conventions:
* Document text is represented as `List Char` (`Text`).  Rust's `str::find`
  returns byte offsets while we use character offsets; both describe the same
  decomposition of the text around the first occurrence of a pattern, so the
  embedding is faithful as long as offsets are only used for slicing, which is
  the case in the source.
* Rust `HashMap`/`HashSet` have unspecified iteration order.  They are
  embedded as association lists in insertion order (with overwriting
  inserts).  Every verified statement only depends on membership, never on
  the iteration order.
* `f64` arithmetic (`estimate_tokens`, statistics rates) is embedded with
  exact rational arithmetic.  For `estimate_tokens` the two rounded `f64`
  operations were checked (by error analysis of the single rounding of
  `w * 1.3`, whose error is at most half an ulp of the final sum) to produce
  exactly `⌈w * 1.3 + s * 0.5⌉` for all representable sizes, so the exact
  embedding agrees with the compiled code on every reachable input.
* Timestamp fields (`created_at`, `updated_at`, `completed_at`, `synced_at`),
  `content_html` and `github_url` of the `Spec` record are omitted from the
  embedding: no verified statement mentions them, `content_html`/`github_url`
  are constantly `None` in the loader and `synced_at` is a wall-clock read.
-/

/-- Document text, one `Char` per Unicode scalar value (Rust `char`). -/
abbrev Text := List Char

/-- Convert a string literal to `Text`. -/
def lit (s : String) : Text := s.data

/-- Rust `char::is_whitespace`: the Unicode `White_Space` property,
given by code point. -/
def isRustWhitespace (c : Char) : Bool :=
  let n := c.toNat
  n = 0x20 ∨ n = 0x09 ∨ n = 0x0A ∨ n = 0x0D ∨ n = 0x0B ∨ n = 0x0C ∨
  n = 0x85 ∨ n = 0xA0 ∨ n = 0x1680 ∨ (0x2000 ≤ n ∧ n ≤ 0x200A) ∨
  n = 0x2028 ∨ n = 0x2029 ∨ n = 0x202F ∨ n = 0x205F ∨ n = 0x3000

/-- Rust `char::is_alphanumeric`, modelled on the ASCII range: letters and
decimal digits.  Non-ASCII Unicode alphabetic/numeric classification is
abstracted (classified as non-alphanumeric); every verified statement is
independent of the classification of individual characters. -/
def isRustAlphanumeric (c : Char) : Bool :=
  ('a' ≤ c ∧ c ≤ 'z') ∨ ('A' ≤ c ∧ c ≤ 'Z') ∨ ('0' ≤ c ∧ c ≤ '9')

/-- Rust `str::trim_start`. -/
def trimStart (t : Text) : Text := t.dropWhile isRustWhitespace

/-- Rust `str::trim`: whitespace removed from both ends. -/
def rustTrim (t : Text) : Text :=
  ((t.dropWhile isRustWhitespace).reverse.dropWhile isRustWhitespace).reverse

/-- First index at which `pat` occurs as a contiguous sub-list of `s`
(Rust `str::find` with a string pattern). -/
def findSub (pat : Text) (s : Text) : Option Nat :=
  if pat.isPrefixOf s then some 0
  else
    match s with
    | [] => none
    | _ :: tail => (findSub pat tail).map (· + 1)

/-- Whether `pat` occurs as a contiguous sub-list of `s`. -/
def hasSub (pat : Text) (s : Text) : Bool := (findSub pat s).isSome

/-- Split on every occurrence of character `c` (Rust `str::split(c)`):
`splitChar c` of the empty text is `[[]]`. -/
def splitChar (c : Char) (t : Text) : List Text :=
  match t with
  | [] => [[]]
  | a :: rest =>
    let parts := splitChar c rest
    if a = c then [] :: parts
    else
      match parts with
      | [] => [[a]]
      | p :: ps => (a :: p) :: ps

/-- Rust `str::split(sep).next()`: the segment before the first occurrence
of `sep` (the whole text when `sep` is absent). -/
def splitFirst (sep : Char) (t : Text) : Text := t.takeWhile (· ≠ sep)

/-- Strip one trailing carriage return (the per-line treatment done by Rust
`str::lines`). -/
def stripCR (t : Text) : Text :=
  match t.reverse with
  | '\r' :: rest => rest.reverse
  | _ => t

/-- Rust `str::lines`: split on `'\n'`, drop a final empty segment produced
by a trailing newline, and strip one trailing `'\r'` from each line. -/
def rustLines (t : Text) : List Text :=
  let parts := splitChar '\n' t
  let parts := if parts.getLast? = some [] then parts.dropLast else parts
  parts.map stripCR

/-- Join texts with `'\n'` (Rust `Vec::join("\n")` / the `format!` glue used
when rebuilding frontmatter). -/
def joinLines (ls : List Text) : Text := List.intercalate ['\n'] ls

/-- Decimal value of a run of ASCII digits. -/
def digitsVal (ds : Text) : Int :=
  ds.foldl (fun acc c => 10 * acc + (c.toNat - '0'.toNat : Int)) 0

/-- Rust `str::parse::<i32>()`: optional sign, then one or more ASCII
digits, rejecting anything else and values outside the `i32` range. -/
def parseI32 (t : Text) : Option Int :=
  let signAndDigits : Int × Text :=
    match t with
    | '+' :: r => (1, r)
    | '-' :: r => (-1, r)
    | r => (1, r)
  let sign := signAndDigits.1
  let digits := signAndDigits.2
  if digits = [] ∨ ¬ digits.all Char.isDigit then none
  else
    let v : Int := sign * digitsVal digits
    if -(2 ^ 31) ≤ v ∧ v ≤ 2 ^ 31 - 1 then some v else none

/-- Rust `i32::to_string()`. -/
def intToText (n : Int) : Text :=
  if n < 0 then '-' :: (Nat.toDigits 10 n.natAbs)
  else Nat.toDigits 10 n.toNat

/-- Rust `format!("{:03}", n)` for the non-negative spec numbers produced by
the loader: left-pad the decimal form with zeros to width 3. -/
def pad3 (n : Int) : Text :=
  let s := intToText n
  List.replicate (3 - s.length) '0' ++ s

/-- Key of a block-sequence currently being decoded. -/
inductive YamlListKey
  | tags
  | dependsOn
deriving DecidableEq, Repr

/-- Parsed frontmatter (`Frontmatter` in `frontmatter.rs`).  The struct
derives `serde(rename_all = "camelCase")`, so the recognized YAML keys are
`status`, `priority`, `tags`, `assignee`, `created`, `createdAt`,
`updatedAt`, `completedAt`, `dependsOn` and `transitions`; all other keys
land in the open `extra` mapping.  The `transitions` field (a list of
records) lies outside the YAML subset supported by the modelled decoder and
is omitted; no verified statement mentions it. -/
structure Frontmatter where
  status : Option Text := none
  priority : Option Text := none
  tags : List Text := []
  assignee : Option Text := none
  created : Option Text := none
  createdAt : Option Text := none
  updatedAt : Option Text := none
  completedAt : Option Text := none
  dependsOn : List Text := []
  /-- Catch-all for unknown keys (`#[serde(flatten)] extra`), holding the
  raw scalar text of each unknown key. -/
  extra : List (Text × Text) := []
deriving DecidableEq, Repr

/-- The all-default frontmatter (`Frontmatter::default()`). -/
def Frontmatter.empty : Frontmatter := {}

/-- `Frontmatter::status_or_default`: the status with a default of
`"planned"`. -/
def Frontmatter.statusOrDefault (fm : Frontmatter) : Text :=
  fm.status.getD (lit "planned")

/-- Modelled from the `serde_yaml` library: decode one plain or
single/double-quoted YAML scalar into a Rust `String`.  Unquoted scalars
that YAML types as non-strings (integers, floats, booleans, null) make the
surrounding `Frontmatter` deserialization fail in the source, hence return
an error here; quoted scalars with escape sequences are outside the
modelled subset. -/
def yamlStringScalar (v : Text) : Except Text Text :=
  match v with
  | '\'' :: rest =>
    if rest ≠ [] ∧ rest.getLast? = some '\'' ∧ ¬ rest.dropLast.contains '\''
    then .ok rest.dropLast else .error (lit "unsupported quoted scalar")
  | '"' :: rest =>
    if rest ≠ [] ∧ rest.getLast? = some '"' ∧ ¬ rest.dropLast.contains '\\' ∧
        ¬ rest.dropLast.contains '"'
    then .ok rest.dropLast else .error (lit "unsupported quoted scalar")
  | _ =>
    let unsigned := match v with
      | '-' :: r => r
      | '+' :: r => r
      | r => r
    if v = [] then .error (lit "invalid type: null, expected a string")
    else if unsigned ≠ [] ∧ unsigned.all (fun c => c.isDigit ∨ c = '.') then
      .error (lit "invalid type: number, expected a string")
    else if v = lit "true" ∨ v = lit "false" ∨ v = lit "null" ∨ v = lit "~"
    then .error (lit "invalid type: non-string, expected a string")
    else .ok v

/-- Set a recognized scalar key, send unknown keys to `extra`, or open a
block sequence for the two list-typed keys.  `none` as `value` means the
key line had no inline value. -/
def yamlApplyKey (fm : Frontmatter) (key : Text) (value : Option Text) :
    Except Text (Frontmatter × Option YamlListKey) :=
  if key = lit "tags" then
    match value with
    | none => .ok ({ fm with tags := [] }, some .tags)
    | some _ => .error (lit "unsupported inline sequence")
  else if key = lit "dependsOn" then
    match value with
    | none => .ok ({ fm with dependsOn := [] }, some .dependsOn)
    | some _ => .error (lit "unsupported inline sequence")
  else if key = lit "transitions" then .error (lit "unsupported key: transitions")
  else if key = lit "status" then
    match value with
    | none => .ok ({ fm with status := none }, none)
    | some v => (yamlStringScalar v).map (fun s => ({ fm with status := some s }, none))
  else if key = lit "priority" then
    match value with
    | none => .ok ({ fm with priority := none }, none)
    | some v => (yamlStringScalar v).map (fun s => ({ fm with priority := some s }, none))
  else if key = lit "assignee" then
    match value with
    | none => .ok ({ fm with assignee := none }, none)
    | some v => (yamlStringScalar v).map (fun s => ({ fm with assignee := some s }, none))
  else if key = lit "created" then
    match value with
    | none => .ok ({ fm with created := none }, none)
    | some v => (yamlStringScalar v).map (fun s => ({ fm with created := some s }, none))
  else if key = lit "createdAt" then
    match value with
    | none => .ok ({ fm with createdAt := none }, none)
    | some v => (yamlStringScalar v).map (fun s => ({ fm with createdAt := some s }, none))
  else if key = lit "updatedAt" then
    match value with
    | none => .ok ({ fm with updatedAt := none }, none)
    | some v => (yamlStringScalar v).map (fun s => ({ fm with updatedAt := some s }, none))
  else if key = lit "completedAt" then
    match value with
    | none => .ok ({ fm with completedAt := none }, none)
    | some v => (yamlStringScalar v).map (fun s => ({ fm with completedAt := some s }, none))
  else
    match value with
    | none => .ok ({ fm with extra := fm.extra ++ [(key, [])] }, none)
    | some v => .ok ({ fm with extra := fm.extra ++ [(key, v)] }, none)

/-- Append a decoded sequence item to the open list-typed key. -/
def yamlApplyItem (fm : Frontmatter) (ctx : Option YamlListKey) (item : Text) :
    Except Text Frontmatter :=
  match ctx with
  | none => .error (lit "unexpected sequence item")
  | some .tags => (yamlStringScalar item).map (fun s => { fm with tags := fm.tags ++ [s] })
  | some .dependsOn =>
    (yamlStringScalar item).map (fun s => { fm with dependsOn := fm.dependsOn ++ [s] })

/-- Line-by-line decoding loop of the modelled YAML subset: top-level
`key: value` scalar lines, `key:` lines opening a block sequence of
`- item` lines, and blank lines.  `sawKey` tracks whether any key was seen
(an empty document is YAML `null`, which fails to deserialize into the
`Frontmatter` struct). -/
def decodeYamlLines (ls : List Text) (fm : Frontmatter)
    (ctx : Option YamlListKey) (sawKey : Bool) : Except Text Frontmatter :=
  match ls with
  | [] => if sawKey then .ok fm else .error (lit "invalid type: null")
  | l :: rest =>
    if rustTrim l = [] then decodeYamlLines rest fm ctx sawKey
    else if l.head? = some '-' then .error (lit "unsupported root sequence")
    else if isRustWhitespace (l.headD ' ') then
      match trimStart l with
      | '-' :: ' ' :: item =>
        match yamlApplyItem fm ctx (rustTrim item) with
        | .ok fm2 => decodeYamlLines rest fm2 ctx sawKey
        | .error e => .error e
      | _ => .error (lit "unsupported nested structure")
    else if l.contains ':' then
      let key := splitFirst ':' l
      let after := l.drop (key.length + 1)
      if after ≠ [] ∧ after.head? ≠ some ' ' then
        .error (lit "unsupported scalar document")
      else
        let value := if rustTrim after = [] then none else some (rustTrim after)
        match yamlApplyKey fm key value with
        | .ok (fm2, ctx2) => decodeYamlLines rest fm2 ctx2 true
        | .error e => .error e
    else .error (lit "unsupported scalar document")

/-- Modelled from the `serde_yaml` library
(`serde_yaml::from_str::<Frontmatter>`), faithful on the line-oriented
YAML subset used by this repository's documents; constructs outside the
subset yield a decode error, which the caller maps to the same fallback as
any other decode failure. -/
def decodeYaml (t : Text) : Except Text Frontmatter :=
  decodeYamlLines ((splitChar '\n' t).map stripCR) {} none false

/-- `parse_frontmatter` (frontmatter.rs): split a document into frontmatter
and body.  Returns the default frontmatter and the unchanged input when the
document does not start with `---`, when no `"\n---"` occurrence follows,
or when the delimited block fails to decode. -/
def parseFrontmatter (content : Text) : Frontmatter × Text :=
  if ¬ (lit "---").isPrefixOf content then ({}, content)
  else
    let rest := content.drop 3
    let rest := if (lit "\n").isPrefixOf rest then rest.drop 1 else rest
    let rest := if (lit "\r\n").isPrefixOf rest then rest.drop 2 else rest
    match findSub (lit "\n---") rest with
    | some endPos =>
      let yamlContent := rest.take endPos
      let markdownContent :=
        (rest.drop (endPos + 4)).dropWhile (fun c => c = '\n' ∨ c = '\r')
      match decodeYaml yamlContent with
      | .ok fm => (fm, markdownContent)
      | .error _ => ({}, content)
    | none => ({}, content)

/-- `extract_title` (frontmatter.rs): the text of the first line of the form
`# <text>`, trimmed. -/
def extractTitle (content : Text) : Option Text :=
  (rustLines content).findSome? (fun l =>
    let trimmed := rustTrim l
    if (lit "# ").isPrefixOf trimmed then some (rustTrim (trimmed.drop 2)) else none)

/-- The canonical in-memory representation of one spec document (`Spec` in
`reader.rs`), restricted to the fields used by the verified statements (see
the module comment for the omitted constant/clock fields). -/
structure Spec where
  id : Text
  projectId : Text
  specNumber : Option Int
  specName : Text
  title : Option Text
  status : Text
  priority : Option Text
  tags : List Text
  assignee : Option Text
  contentMd : Text
  filePath : Text
  dependsOn : List Text
  requiredBy : List Text
deriving DecidableEq, Repr

/-- One immediate subdirectory of a scanned directory, together with the
contents of its `README.md` when that file is readable. -/
structure DirEntry where
  name : Text
  readme : Option Text
deriving DecidableEq, Repr

/-- `SpecReader::load_spec_from_dir`: load a single spec from a directory
whose `README.md` holds `content`.  Returns `none` when the frontmatter
declares no status. -/
def loadSpecFromDir (projectId : Text) (content : Text) (specName : Text)
    (isArchived : Bool) : Option Spec :=
  let fm := (parseFrontmatter content).1
  let body := (parseFrontmatter content).2
  if fm.status = none then none
  else
    let specNumber := parseI32 (splitFirst '-' specName)
    let title := extractTitle body
    let id := lit "fs-" ++ specName
    let filePath :=
      if isArchived then lit "specs/archived/" ++ specName ++ lit "/README.md"
      else lit "specs/" ++ specName ++ lit "/README.md"
    let status := if isArchived then lit "archived" else fm.statusOrDefault
    some {
      id := id
      projectId := projectId
      specNumber := specNumber
      specName := specName
      title := title
      status := status
      priority := fm.priority
      tags := fm.tags
      assignee := fm.assignee
      contentMd := content
      filePath := filePath
      dependsOn := fm.dependsOn
      requiredBy := [] }

/-- `SpecReader::load_specs_from_dir`: scan the immediate subdirectories of
one directory, skipping the nested `archived` directory outside archived
mode, directories whose name does not start with a decimal digit,
unreadable `README.md` files and documents without a frontmatter status. -/
def loadSpecsFromDir (projectId : Text) (entries : List DirEntry)
    (isArchived : Bool) : List Spec :=
  entries.filterMap (fun e =>
    if e.name = lit "archived" ∧ ¬ isArchived then none
    else if ¬ (e.name.headD 'x').isDigit then none
    else e.readme.bind (fun c => loadSpecFromDir projectId c e.name isArchived))

/-- `dependency_matches` (reader.rs): a raw dependency reference matches a
spec when it equals the spec's name, or when the spec has a number and the
segment of the trimmed reference before the first hyphen parses as that
number. -/
def dependencyMatches (dep : Text) (specName : Text) (specNumber : Option Int) :
    Bool :=
  if dep = specName then true
  else
    match specNumber with
    | some num =>
      match parseI32 (splitFirst '-' (rustTrim dep)) with
      | some depNum => depNum = num
      | none => false
    | none => false

/-- Insert into an association list with overwrite (`HashMap::insert` /
collecting an iterator into a `HashMap`; iteration order is modelled as
insertion order, see the module comment). -/
def insertKeyed (m : List (Text × List Text)) (k : Text) (v : List Text) :
    List (Text × List Text) :=
  if m.any (fun p => p.1 = k) then
    m.map (fun p => if p.1 = k then (k, v) else p)
  else m ++ [(k, v)]

/-- The `spec_name → depends_on` map built at the start of
`SpecReader::build_required_by`. -/
def dependencyMap (specs : List Spec) : List (Text × List Text) :=
  specs.foldl (fun m s => insertKeyed m s.specName s.dependsOn) []

/-- Inner loop of `SpecReader::build_required_by`: the names of the map
entries (other than the spec's own name) with at least one dependency
reference matching the spec. -/
def requiredByOf (depMap : List (Text × List Text)) (s : Spec) : List Text :=
  (depMap.filter (fun p =>
    p.1 ≠ s.specName ∧
    p.2.any (fun dep => dependencyMatches dep s.specName s.specNumber))).map Prod.fst

/-- `SpecReader::build_required_by`: compute the reverse-dependency lists of
every spec from the `spec_name → depends_on` map. -/
def buildRequiredBy (specs : List Spec) : List Spec :=
  let depMap := dependencyMap specs
  specs.map (fun s => { s with requiredBy := requiredByOf depMap s })

/-- Stable insertion used by `stableSort`. -/
def stableInsert (lt : α → α → Bool) (x : α) : List α → List α
  | [] => [x]
  | y :: ys => if lt y x then y :: stableInsert lt x ys else x :: y :: ys

/-- Stable sort (insertion sort), matching the semantics of Rust's stable
`slice::sort_by` for the strict order `lt`. -/
def stableSort (lt : α → α → Bool) : List α → List α
  | [] => []
  | x :: xs => stableInsert lt x (stableSort lt xs)

/-- Strict order of `Option<i32>` under Rust's derived `Ord`
(`None < Some _`). -/
def optIntLt (a b : Option Int) : Bool :=
  match a, b with
  | none, none => false
  | none, some _ => true
  | some _, none => false
  | some x, some y => x < y

/-- `SpecReader::load_all`: load the root listing and, when present, the
nested `archived` listing, sort by spec number (stable, `None` first), and
compute `required_by`.  A missing root is represented by the caller passing
an empty listing, matching the early return in the source. -/
def loadAll (projectId : Text) (rootEntries : List DirEntry)
    (archivedEntries : Option (List DirEntry)) : List Spec :=
  let specs := loadSpecsFromDir projectId rootEntries false ++
    (match archivedEntries with
     | some es => loadSpecsFromDir projectId es true
     | none => [])
  let sorted := stableSort (fun a b => optIntLt a.specNumber b.specNumber) specs
  buildRequiredBy sorted

/-- `VALID_STATUSES` (constants.rs). -/
def VALID_STATUSES : List Text :=
  [lit "draft", lit "planned", lit "in-progress", lit "complete", lit "archived"]

/-- `VALID_PRIORITIES` (constants.rs). -/
def VALID_PRIORITIES : List Text :=
  [lit "critical", lit "high", lit "medium", lit "low"]

/-- Severity of a validation issue (`IssueSeverity`). -/
inductive IssueSeverity
  | error
  | warning
  | info
deriving DecidableEq, Repr

/-- A single validation issue (`ValidationIssue`). -/
structure ValidationIssue where
  severity : IssueSeverity
  code : Text
  message : Text
  line : Option Int
deriving DecidableEq, Repr

/-- Validation result for a spec (`ValidationResult`). -/
structure ValidationResult where
  specName : Text
  valid : Bool
  issues : List ValidationIssue
deriving DecidableEq, Repr

/-- Rust `str::split_whitespace`, accumulator form: `cur` holds the
reversed characters of the word being scanned. -/
def splitWhitespaceGo (cur : Text) : Text → List Text
  | [] => if cur = [] then [] else [cur.reverse]
  | c :: cs =>
    if isRustWhitespace c then
      if cur = [] then splitWhitespaceGo [] cs
      else cur.reverse :: splitWhitespaceGo [] cs
    else splitWhitespaceGo (c :: cur) cs

/-- Rust `str::split_whitespace`: the maximal whitespace-free runs. -/
def splitWhitespace (t : Text) : List Text := splitWhitespaceGo [] t

/-- `content.split_whitespace().count()`. -/
def wordCount (t : Text) : Nat := (splitWhitespace t).length

/-- The count of characters that are neither alphanumeric nor whitespace. -/
def specialCharCount (t : Text) : Nat :=
  t.countP (fun c => ¬ isRustAlphanumeric c ∧ ¬ isRustWhitespace c)

/-- `estimate_tokens` (validation.rs):
`((word_count as f64 * 1.3) + (special_chars as f64 * 0.5)).ceil() as i32`,
embedded with exact rational arithmetic (see the module comment on `f64`). -/
def estimateTokens (content : Text) : Int :=
  ⌈(wordCount content : ℚ) * (13 / 10) + (specialCharCount content : ℚ) * (1 / 2)⌉

/-- `validate_spec` (validation.rs): re-parse the stored document and apply
the structural and content rules in source order. -/
def validateSpec (spec : Spec) : ValidationResult :=
  let fm := (parseFrontmatter spec.contentMd).1
  let body := (parseFrontmatter spec.contentMd).2
  let est := estimateTokens spec.contentMd
  let lineCount := (rustLines spec.contentMd).length
  let issues : List ValidationIssue :=
    (if fm.status = none then
      [{ severity := .error, code := lit "missing-status",
         message := lit "Spec must have a status field in frontmatter",
         line := none }]
     else []) ++
    (match fm.status with
     | some st =>
       if ¬ VALID_STATUSES.contains st then
         [{ severity := .error, code := lit "invalid-status",
            message := lit "Invalid status '" ++ st ++ lit "'. Must be one of: " ++
              List.intercalate (lit ", ") VALID_STATUSES,
            line := none }]
       else []
     | none => []) ++
    (match fm.priority with
     | some pr =>
       if ¬ VALID_PRIORITIES.contains pr then
         [{ severity := .warning, code := lit "invalid-priority",
            message := lit "Invalid priority '" ++ pr ++ lit "'. Recommended: " ++
              List.intercalate (lit ", ") VALID_PRIORITIES,
            line := none }]
       else []
     | none => []) ++
    (if spec.title = none then
      [{ severity := .warning, code := lit "missing-title",
         message := lit "Spec should have a title (H1 heading)", line := none }]
     else []) ++
    (if 400 < lineCount then
      [{ severity := .warning, code := lit "excessive-length",
         message := lit "Spec has " ++ intToText lineCount ++
           lit " lines, which exceeds recommended maximum of 400",
         line := none }]
     else []) ++
    (if ¬ (hasSub (lit "## Overview") body ∨ hasSub (lit "## overview") body) then
      [{ severity := .info, code := lit "missing-overview",
         message := lit "Consider adding an ## Overview section", line := none }]
     else []) ++
    (fm.dependsOn.filterMap (fun dep =>
      if rustTrim dep = [] then
        some { severity := .warning, code := lit "empty-dependency",
               message := lit "Empty dependency in depends_on list", line := none }
      else none)) ++
    (if 5000 < est then
      [{ severity := .warning, code := lit "high-token-count",
         message := lit "Estimated " ++ intToText est ++
           lit " tokens. Consider splitting if over 5000.",
         line := none }]
     else if 3500 < est then
      [{ severity := .info, code := lit "moderate-token-count",
         message := lit "Estimated " ++ intToText est ++
           lit " tokens. Consider splitting if content grows.",
         line := none }]
     else [])
  { specName := spec.specName,
    valid := ! issues.any (fun i => i.severity == .error),
    issues := issues }

/-- The name set built by `validate_all_specs`: every spec name plus the
zero-padded and bare decimal forms of every spec number (`HashSet`
modelled as a list queried by membership). -/
def specNamesOf (specs : List Spec) : List Text :=
  specs.flatMap (fun s =>
    [s.specName] ++
    (match s.specNumber with
     | some n => [pad3 n, intToText n]
     | none => []))

/-- The dependency-existence test of `validate_all_specs`: the trimmed
reference is a known name, or its segment before the first hyphen parses as
an integer whose bare decimal form is a known name. -/
def depExistsIn (names : List Text) (trimmed : Text) : Bool :=
  names.contains trimmed ||
  (match parseI32 (splitFirst '-' trimmed) with
   | some n => names.contains (intToText n)
   | none => false)

/-- One iteration of the broken-dependency loop in `validate_all_specs`:
skip blank references and resolvable references, otherwise append a
warning and re-run the validity flip check. -/
def addBrokenDepStep (names : List Text) (r : ValidationResult) (dep : Text) :
    ValidationResult :=
  let trimmed := rustTrim dep
  if trimmed = [] then r
  else if depExistsIn names trimmed then r
  else
    let r2 := { r with issues := r.issues ++
      [{ severity := .warning, code := lit "broken-dependency",
         message := lit "Dependency '" ++ dep ++ lit "' not found", line := none }] }
    if r2.valid && r2.issues.any (fun i => i.severity == .error) then
      { r2 with valid := false }
    else r2

/-- `validate_all_specs` (validation.rs): per-spec validation followed by
the cross-spec broken-dependency pass. -/
def validateAllSpecs (specs : List Spec) : List ValidationResult :=
  let names := specNamesOf specs
  specs.map (fun s =>
    ((parseFrontmatter s.contentMd).1.dependsOn).foldl
      (addBrokenDepStep names) (validateSpec s))

/-- Statistics result for a project (`StatsResult` in stats.rs).  The two
histogram fields keep the association-list order described in the module
comment; rate fields are exact rationals standing for the source's `f64`
values. -/
structure StatsResult where
  totalProjects : Int
  totalSpecs : Int
  specsByStatus : List (Text × Int)
  specsByPriority : List (Text × Int)
  completionRate : ℚ
  activeSpecs : Int
  totalTags : Int
  avgTagsPerSpec : ℚ
  specsWithDependencies : Int
deriving DecidableEq, Repr

/-- `*counts.entry(k).or_insert(0) += 1` on an association list. -/
def bumpCount (m : List (Text × Int)) (k : Text) : List (Text × Int) :=
  if m.any (fun p => p.1 = k) then
    m.map (fun p => if p.1 = k then (p.1, p.2 + 1) else p)
  else m ++ [(k, 1)]

/-- `counts.get(k).copied().unwrap_or(0)`. -/
def lookupCount (m : List (Text × Int)) (k : Text) : Int :=
  ((m.find? (fun p => p.1 = k)).map Prod.snd).getD 0

/-- Rust `f64::round`: round half away from zero. -/
def rustRound (x : ℚ) : ℚ :=
  if 0 ≤ x then ((⌊x + 1 / 2⌋ : ℤ) : ℚ) else ((⌈x - 1 / 2⌉ : ℤ) : ℚ)

/-- Histogram accumulation loop of `calculate_stats`. -/
def statusCountsOf (specs : List Spec) : List (Text × Int) :=
  specs.foldl (fun m s => bumpCount m s.status) []

/-- Histogram accumulation loop of `calculate_stats` for priorities
(specs without a priority are not counted). -/
def priorityCountsOf (specs : List Spec) : List (Text × Int) :=
  specs.foldl (fun m s =>
    match s.priority with
    | some p => bumpCount m p
    | none => m) []

/-- The distinct tags across all specs (`HashSet` modelled as a list in
first-insertion order). -/
def uniqueTagsOf (specs : List Spec) : List Text :=
  specs.foldl (fun acc s =>
    s.tags.foldl (fun acc t => if acc.contains t then acc else acc ++ [t]) acc) []

/-- `calculate_stats` (stats.rs). -/
def calculateStats (specs : List Spec) : StatsResult :=
  let totalSpecs : Int := specs.length
  let statusCounts := statusCountsOf specs
  let priorityCounts := priorityCountsOf specs
  let sumTags : Int := (specs.map (fun s => (s.tags.length : Int))).sum
  let specsWithDependencies : Int := (specs.countP (fun s => s.dependsOn ≠ [])) 
  let completeCount := lookupCount statusCounts (lit "complete")
  let completionRate : ℚ :=
    if 0 < totalSpecs then ((completeCount : ℚ) / (totalSpecs : ℚ)) * 100 else 0
  let activeSpecs := lookupCount statusCounts (lit "draft") +
    lookupCount statusCounts (lit "planned") +
    lookupCount statusCounts (lit "in-progress")
  let avgTagsPerSpec : ℚ :=
    if 0 < totalSpecs then (sumTags : ℚ) / (totalSpecs : ℚ) else 0
  { totalProjects := 1
    totalSpecs := totalSpecs
    specsByStatus := stableSort (fun a b => b.2 < a.2) statusCounts
    specsByPriority := stableSort (fun a b => b.2 < a.2) priorityCounts
    completionRate := rustRound (completionRate * 10) / 10
    activeSpecs := activeSpecs
    totalTags := (uniqueTagsOf specs).length
    avgTagsPerSpec := rustRound (avgTagsPerSpec * 100) / 100
    specsWithDependencies := specsWithDependencies }

/-- The line-replacement loop of `update_frontmatter_field`: replace the
first line whose `trim_start` begins with the field pattern, reporting
whether a replacement happened. -/
def replaceFieldLine (fieldPattern newLine : Text) : List Text → List Text × Bool
  | [] => ([], false)
  | l :: ls =>
    if fieldPattern.isPrefixOf (trimStart l) then (newLine :: ls, true)
    else
      let r := replaceFieldLine fieldPattern newLine ls
      (l :: r.1, r.2)

/-- `update_frontmatter_field` (commands.rs): textually replace (or append)
one single-line scalar field inside the frontmatter block, leaving the body
after the closing delimiter untouched. -/
def updateFrontmatterField (content field value : Text) : Except Text Text :=
  if ¬ (lit "---").isPrefixOf content then .error (lit "No frontmatter found")
  else
    let rest := content.drop 3
    let rest := if (lit "\n").isPrefixOf rest then rest.drop 1 else rest
    match findSub (lit "\n---") rest with
    | none => .error (lit "Malformed frontmatter")
    | some endPos =>
      let yamlContent := rest.take endPos
      let markdownContent := rest.drop (endPos + 4)
      let fieldPattern := field ++ [':']
      let newLine := field ++ lit ": " ++ value
      let r := replaceFieldLine fieldPattern newLine (rustLines yamlContent)
      let newYaml :=
        if r.2 then joinLines r.1
        else yamlContent ++ '\n' :: (field ++ lit ": " ++ value)
      .ok (lit "---\n" ++ newYaml ++ lit "\n---" ++ markdownContent)

/-- The content transformation performed by a successful `update_spec_status`
(commands.rs): validate the new status, enforce the draft-skip policy
against the loaded spec's current status, then rewrite the `status` and
`updated_at` frontmatter fields in sequence (`now` is the RFC 3339 clock
reading, wrapped in single quotes by the source's `format!`). -/
def updateSpecStatusContent (currentStatus content newStatus now : Text)
    (force : Bool) : Except Text Text :=
  if ¬ VALID_STATUSES.contains newStatus then
    .error (lit "Invalid status '" ++ newStatus ++ lit "'. Must be one of: " ++
      List.intercalate (lit ", ") VALID_STATUSES)
  else if currentStatus = lit "draft" ∧
      (newStatus = lit "in-progress" ∨ newStatus = lit "complete") ∧ ¬ force then
    .error (lit "Cannot skip 'planned' stage. Use force to override.")
  else
    (updateFrontmatterField content (lit "status") newStatus).bind (fun c1 =>
      updateFrontmatterField c1 (lit "updated_at") ('\'' :: now ++ ['\'']))

/-- Whether a frontmatter line is the single-line scalar field `field`
under the textual match of `update_frontmatter_field`
(`line.trim_start().starts_with("<field>:")`). -/
def isFieldLine (field l : Text) : Bool :=
  (field ++ [':']).isPrefixOf (trimStart l)

/-- Specification-level form of one `update_frontmatter_field` call on the
frontmatter lines: replace the first line matching `field` by
`"<field>: <value>"`, appending that line when no line matches. -/
def applyField (ls : List Text) (field value : Text) : List Text :=
  let r := replaceFieldLine (field ++ [':']) (field ++ lit ": " ++ value) ls
  if r.2 then r.1 else ls ++ [field ++ lit ": " ++ value]

/-- Claim C1 as stated: over every `load_all` result, `required_by` is the
exact inverse of `depends_on` under the resolver's matching rule, for all
distinct loaded specs. -/
def ClaimC1 : Prop :=
  ∀ (pid : Text) (root : List DirEntry) (arch : Option (List DirEntry)),
    ∀ a ∈ loadAll pid root arch, ∀ b ∈ loadAll pid root arch,
      a ≠ b →
      (b.specName ∈ a.requiredBy ↔
        ∃ dep ∈ b.dependsOn, dependencyMatches dep a.specName a.specNumber = true)

/-- Claim C4 as stated, on line-structured documents: when none of the
lines `ys` after the opening delimiter is exactly `---` (in particular,
lines merely starting with `---` do not terminate the block), the metadata
block decoded by `parse_frontmatter` is exactly `ys`, the region ending at
the first subsequent line consisting solely of `---`, with the documented
fallback (default frontmatter and the unchanged input) when decoding that
region fails. -/
def ClaimC4 : Prop :=
  ∀ (ys rest : List Text),
    (∀ l ∈ ys, l ≠ lit "---" ∧ '\n' ∉ l ∧ '\r' ∉ l) →
    (let content := lit "---\n" ++ joinLines ys ++ lit "\n---\n" ++ joinLines rest
     match decodeYaml (joinLines ys) with
     | .ok fm => (parseFrontmatter content).1 = fm
     | .error _ => parseFrontmatter content = ({}, content))

/-- Root listing of the C1 counterexample: the regular spec `001-x` depends
on `2-x`, which resolves to `002-a`. -/
def c1Root : List DirEntry :=
  [{ name := lit "002-a", readme := some (lit "---\nstatus: draft\n---\nx") },
   { name := lit "001-x",
     readme := some (lit "---\nstatus: draft\ndependsOn:\n  - 2-x\n---\nx") }]

/-- Archived listing of the C1 counterexample: a second spec directory also
named `001-x`, whose `depends_on` list is empty.  Its entry overwrites the
regular `001-x` in the name-keyed dependency map of `build_required_by`. -/
def c1Arch : List DirEntry :=
  [{ name := lit "001-x", readme := some (lit "---\nstatus: draft\n---\nx") }]

/-- The spec `002-a` as produced by `load_all` on the C1 counterexample:
its `required_by` is empty. -/
def c1SpecA : Spec :=
  { id := lit "fs-002-a", projectId := lit "p", specNumber := some 2,
    specName := lit "002-a", title := none, status := lit "draft",
    priority := none, tags := [], assignee := none,
    contentMd := lit "---\nstatus: draft\n---\nx",
    filePath := lit "specs/002-a/README.md",
    dependsOn := [], requiredBy := [] }

/-- The regular spec `001-x` as produced by `load_all` on the C1
counterexample: it depends on `2-x`, which matches `002-a`. -/
def c1SpecB : Spec :=
  { id := lit "fs-001-x", projectId := lit "p", specNumber := some 1,
    specName := lit "001-x", title := none, status := lit "draft",
    priority := none, tags := [], assignee := none,
    contentMd := lit "---\nstatus: draft\ndependsOn:\n  - 2-x\n---\nx",
    filePath := lit "specs/001-x/README.md",
    dependsOn := [lit "2-x"], requiredBy := [] }

/-- Root listing of the C1 witness (all spec names distinct). -/
def w1Root : List DirEntry :=
  [{ name := lit "001-first", readme := some (lit "---\nstatus: draft\n---\nx") },
   { name := lit "002-second",
     readme := some (lit "---\nstatus: draft\ndependsOn:\n  - 001-first\n---\nx") }]

/-- The spec `001-first` as produced by `load_all` on the C1 witness. -/
def w1SpecA : Spec :=
  { id := lit "fs-001-first", projectId := lit "p", specNumber := some 1,
    specName := lit "001-first", title := none, status := lit "draft",
    priority := none, tags := [], assignee := none,
    contentMd := lit "---\nstatus: draft\n---\nx",
    filePath := lit "specs/001-first/README.md",
    dependsOn := [], requiredBy := [lit "002-second"] }

/-- The spec `002-second` as produced by `load_all` on the C1 witness. -/
def w1SpecB : Spec :=
  { id := lit "fs-002-second", projectId := lit "p", specNumber := some 2,
    specName := lit "002-second", title := none, status := lit "draft",
    priority := none, tags := [], assignee := none,
    contentMd := lit "---\nstatus: draft\ndependsOn:\n  - 001-first\n---\nx",
    filePath := lit "specs/002-second/README.md",
    dependsOn := [lit "001-first"], requiredBy := [] }

/-- The spec produced by the C2 witness load (an archived directory whose
frontmatter declares the non-archived status `draft`). -/
def c2Spec : Spec :=
  { id := lit "fs-001-a", projectId := lit "p", specNumber := some 1,
    specName := lit "001-a", title := none, status := lit "archived",
    priority := none, tags := [], assignee := none,
    contentMd := lit "---\nstatus: draft\n---\nx",
    filePath := lit "specs/archived/001-a/README.md",
    dependsOn := [], requiredBy := [] }

/-- A spec whose document declares the unresolvable dependency `'999'`,
used by the C5 witness. -/
def c5Spec : Spec :=
  { id := lit "fs-001-a", projectId := lit "p", specNumber := some 1,
    specName := lit "001-a", title := some (lit "T"), status := lit "draft",
    priority := none, tags := [], assignee := none,
    contentMd := lit "---\nstatus: draft\ndependsOn:\n  - '999'\n---\n# T\n\n## Overview\nx",
    filePath := lit "specs/001-a/README.md",
    dependsOn := [lit "999"], requiredBy := [] }

/-- Document used by the C4 counterexample: no line consists solely of
`---` before the line `---junk`, which merely starts with the delimiter. -/
def c4Content : Text := lit "---\nstatus: draft\n---junk\n---\nbody"

/-- A frontmatter line of the single-line shape assumed by the textual
field rewrite: no embedded newline or carriage return, and not starting
with the delimiter `---`. -/
def cleanLine (l : Text) : Prop :=
  '\n' ∉ l ∧ '\r' ∉ l ∧ ¬ (lit "---").isPrefixOf l = true

instance (l : Text) : Decidable (cleanLine l) := by
  unfold cleanLine
  infer_instance

theorem findSub_none_cons {pat : Text} {c : Char} {t : Text}
    (h : findSub pat (c :: t) = none) : findSub pat t = none := by
  unfold findSub at h
  split at h
  · exact absurd h (by simp)
  · simpa using h

theorem findSub_none_drop {pat : Text} {t : Text}
    (h : findSub pat t = none) (n : Nat) : findSub pat (t.drop n) = none := by
  induction n generalizing t with
  | zero => simpa using h
  | succ n ih =>
    cases t with
    | nil => simpa using h
    | cons c t =>
      rw [List.drop_succ_cons]
      exact ih (findSub_none_cons h)

/-- C10: a document that begins with the opening delimiter but whose
remainder contains no closing-delimiter occurrence yields the default
(empty) frontmatter together with the original text unchanged. -/
theorem C10_no_closing_delimiter_default (content : Text)
    (hstart : (lit "---").isPrefixOf content = true)
    (hnone : findSub (lit "\n---") (content.drop 3) = none) :
    parseFrontmatter content = ({}, content) := by
  simp only [parseFrontmatter]
  rw [if_neg (by simp [hstart])]
  have h1 : findSub (lit "\n---")
      (if (lit "\n").isPrefixOf (content.drop 3) then (content.drop 3).drop 1
       else content.drop 3) = none := by
    split
    · exact findSub_none_drop hnone 1
    · exact hnone
  generalize hr1 : (if (lit "\n").isPrefixOf (content.drop 3) then (content.drop 3).drop 1
       else content.drop 3) = r1 at h1 ⊢
  have h2 : findSub (lit "\n---")
      (if (lit "\r\n").isPrefixOf r1 then r1.drop 2 else r1) = none := by
    split
    · exact findSub_none_drop h1 2
    · exact h1
  generalize (if (lit "\r\n").isPrefixOf r1 then r1.drop 2 else r1) = r2 at h2 ⊢
  rw [h2]

/-- C10 witness: a concrete unterminated document. -/
theorem C10_witness :
    parseFrontmatter (lit "---\nno closing here") = ({}, lit "---\nno closing here") :=
  C10_no_closing_delimiter_default (lit "---\nno closing here") (by decide) (by decide)

/-- C9: `calculate_stats` always reports `total_projects = 1`, including on
the empty input. -/
theorem C9_total_projects_one (specs : List Spec) :
    (calculateStats specs).totalProjects = 1 := rfl

/-- C8: `calculate_stats` on the empty spec slice returns zero total specs,
a 0.0 completion rate (the guarded division never happens) and zero active
specs. -/
theorem C8_empty_stats :
    (calculateStats []).totalSpecs = 0 ∧ (calculateStats []).completionRate = 0 ∧
    (calculateStats []).activeSpecs = 0 := by
  refine ⟨rfl, ?_, rfl⟩
  show rustRound ((0 : ℚ) * 10) / 10 = 0
  rw [rustRound]
  norm_num

/-- C2: every spec loaded from the nested archived subdirectory has status
`"archived"` regardless of its frontmatter, and the legacy-location file
path `specs/archived/<name>/README.md`. -/
theorem C2_archived_forces_status_and_path (pid content specName : Text) (s : Spec)
    (h : loadSpecFromDir pid content specName true = some s) :
    s.status = lit "archived" ∧
    s.filePath = lit "specs/archived/" ++ specName ++ lit "/README.md" := by
  simp only [loadSpecFromDir] at h
  split at h
  · exact absurd h (by simp)
  · injection h with h
    subst h
    exact ⟨rfl, rfl⟩

/-- C2 witness: an archived directory whose frontmatter declares status
`draft` still loads with status `archived` and the legacy path. -/
theorem C2_witness :
    c2Spec.status = lit "archived" ∧
    c2Spec.filePath = lit "specs/archived/" ++ lit "001-a" ++ lit "/README.md" :=
  C2_archived_forces_status_and_path (lit "p") (lit "---\nstatus: draft\n---\nx")
    (lit "001-a") c2Spec (by decide)

/-- C4 counterexample: on `c4Content`, the code terminates the metadata
block at the line `---junk`, which merely starts with `---`, decoding only
`status: draft` as the block and starting the body at `junk`; the claim
instead requires the block to run to the first line consisting solely of
`---` (with the documented fallback when that region fails to decode). -/
theorem C4_counterexample : ¬ ClaimC4 := by
  intro h
  have h2 := h [lit "status: draft", lit "---junk"] [lit "body"] (by decide)
  have h3 : parseFrontmatter c4Content = ({}, c4Content) := h2
  exact absurd h3 (by decide)

/-- C1 counterexample: one `load_all` pass over a root containing `002-a`
and `001-x` (the latter depending on `2-x`) plus an archived directory also
named `001-x` with no dependencies.  The name-keyed dependency map keeps
only the archived `001-x`, so `002-a.required_by` is empty even though the
regular `001-x` has a dependency resolving to `002-a`. -/
theorem C1_counterexample : ¬ ClaimC1 := by
  intro h
  have h2 := h (lit "p") c1Root (some c1Arch) c1SpecA (by decide) c1SpecB (by decide)
    (by decide)
  have h3 := h2.mpr ⟨lit "2-x", by decide, by decide⟩
  exact absurd h3 (by decide)

theorem not_any_error_iff (L : List ValidationIssue) :
    (! L.any (fun i => i.severity == IssueSeverity.error)) = true ↔
      ∀ i ∈ L, i.severity ≠ IssueSeverity.error := by
  simp

theorem validateSpec_valid_iff (s : Spec) :
    (validateSpec s).valid = true ↔
      ∀ i ∈ (validateSpec s).issues, i.severity ≠ IssueSeverity.error :=
  not_any_error_iff (validateSpec s).issues

theorem addBrokenDepStep_invariant (names : List Text) (r : ValidationResult)
    (dep : Text)
    (h : r.valid = true ↔ ∀ i ∈ r.issues, i.severity ≠ IssueSeverity.error) :
    (addBrokenDepStep names r dep).valid = true ↔
      ∀ i ∈ (addBrokenDepStep names r dep).issues,
        i.severity ≠ IssueSeverity.error := by
  simp only [addBrokenDepStep]
  split
  · exact h
  · split
    · exact h
    · split
      · rename_i hcond
        simp only [Bool.and_eq_true, List.any_eq_true, beq_iff_eq] at hcond
        obtain ⟨hv, i, hi, hsev⟩ := hcond
        constructor
        · intro hfalse; exact absurd hfalse (by simp)
        · intro hall; exact absurd hsev (hall i hi)
      · rename_i hcond
        constructor
        · intro hv i hi
          rcases List.mem_append.mp hi with hmem | hmem
          · exact (h.mp hv) i hmem
          · simp only [List.mem_singleton] at hmem
            subst hmem
            simp
        · intro hall
          exact h.mpr (fun i hi => hall i (List.mem_append_left _ hi))

theorem foldBroken_invariant (names : List Text) (deps : List Text)
    (r : ValidationResult)
    (h : r.valid = true ↔ ∀ i ∈ r.issues, i.severity ≠ IssueSeverity.error) :
    (deps.foldl (addBrokenDepStep names) r).valid = true ↔
      ∀ i ∈ (deps.foldl (addBrokenDepStep names) r).issues,
        i.severity ≠ IssueSeverity.error := by
  induction deps generalizing r with
  | nil => exact h
  | cons d rest ih =>
    rw [List.foldl_cons]
    exact ih _ (addBrokenDepStep_invariant names r d h)

/-- C3: for every `ValidationResult` returned by `validate_spec` or by
`validate_all_specs`, the `valid` flag is true iff the issues list contains
no issue of error severity. -/
theorem C3_valid_iff_no_error :
    (∀ s : Spec, ((validateSpec s).valid = true ↔
      ∀ i ∈ (validateSpec s).issues, i.severity ≠ IssueSeverity.error)) ∧
    (∀ (specs : List Spec), ∀ r ∈ validateAllSpecs specs,
      (r.valid = true ↔ ∀ i ∈ r.issues, i.severity ≠ IssueSeverity.error)) := by
  refine ⟨validateSpec_valid_iff, ?_⟩
  intro specs r hr
  simp only [validateAllSpecs, List.mem_map] at hr
  obtain ⟨s, hs, rfl⟩ := hr
  exact foldBroken_invariant _ _ _ (validateSpec_valid_iff s)

/-- C3 witness: the invariant instantiated on the concrete
`validate_all_specs` result for `c5Spec`. -/
theorem C3_witness :
    (((validateAllSpecs [c5Spec]).get ⟨0, by simp [validateAllSpecs]⟩).valid = true ↔
      ∀ i ∈ ((validateAllSpecs [c5Spec]).get ⟨0, by simp [validateAllSpecs]⟩).issues,
        i.severity ≠ IssueSeverity.error) :=
  C3_valid_iff_no_error.2 [c5Spec] _ (List.get_mem _ _ _)

theorem addBrokenDepStep_valid_eq (names : List Text) (r : ValidationResult)
    (dep : Text)
    (h : r.valid = true ↔ ∀ i ∈ r.issues, i.severity ≠ IssueSeverity.error) :
    (addBrokenDepStep names r dep).valid = r.valid := by
  simp only [addBrokenDepStep]
  split
  · rfl
  · split
    · rfl
    · split
      · rename_i hcond
        simp only [Bool.and_eq_true, List.any_eq_true, beq_iff_eq] at hcond
        obtain ⟨hv, i, hi, hsev⟩ := hcond
        rcases List.mem_append.mp hi with hmem | hmem
        · exact absurd hsev ((h.mp hv) i hmem)
        · simp only [List.mem_singleton] at hmem
          subst hmem
          simp at hsev
      · rfl

theorem foldBroken_valid_eq (names : List Text) (deps : List Text)
    (r : ValidationResult)
    (h : r.valid = true ↔ ∀ i ∈ r.issues, i.severity ≠ IssueSeverity.error) :
    (deps.foldl (addBrokenDepStep names) r).valid = r.valid := by
  induction deps generalizing r with
  | nil => rfl
  | cons d rest ih =>
    rw [List.foldl_cons, ih _ (addBrokenDepStep_invariant names r d h),
      addBrokenDepStep_valid_eq names r d h]

theorem addBrokenDepStep_issues_mono (names : List Text) (r : ValidationResult)
    (dep : Text) (i : ValidationIssue) (hi : i ∈ r.issues) :
    i ∈ (addBrokenDepStep names r dep).issues := by
  simp only [addBrokenDepStep]
  split
  · exact hi
  · split
    · exact hi
    · split
      · exact List.mem_append_left _ hi
      · exact List.mem_append_left _ hi

theorem foldBroken_issues_mono (names : List Text) (deps : List Text)
    (r : ValidationResult) (i : ValidationIssue) (hi : i ∈ r.issues) :
    i ∈ (deps.foldl (addBrokenDepStep names) r).issues := by
  induction deps generalizing r with
  | nil => exact hi
  | cons d rest ih =>
    rw [List.foldl_cons]
    exact ih _ (addBrokenDepStep_issues_mono names r d i hi)

theorem addBrokenDepStep_adds (names : List Text) (r : ValidationResult)
    (dep : Text) (h1 : rustTrim dep ≠ [])
    (h2 : depExistsIn names (rustTrim dep) = false) :
    ∃ i ∈ (addBrokenDepStep names r dep).issues,
      i.severity = IssueSeverity.warning ∧ i.code = lit "broken-dependency" := by
  simp only [addBrokenDepStep]
  rw [if_neg h1, if_neg (by simp [h2])]
  split
  · exact ⟨_, List.mem_append_right _ (List.mem_singleton_self _), rfl, rfl⟩
  · exact ⟨_, List.mem_append_right _ (List.mem_singleton_self _), rfl, rfl⟩

theorem foldBroken_adds (names : List Text) (deps : List Text)
    (r : ValidationResult)
    (hbad : ∃ dep ∈ deps, rustTrim dep ≠ [] ∧
      depExistsIn names (rustTrim dep) = false) :
    ∃ i ∈ (deps.foldl (addBrokenDepStep names) r).issues,
      i.severity = IssueSeverity.warning ∧ i.code = lit "broken-dependency" := by
  induction deps generalizing r with
  | nil => exact absurd hbad (by simp)
  | cons d rest ih =>
    rw [List.foldl_cons]
    rcases hbad with ⟨dep, hmem, hd1, hd2⟩
    rcases List.mem_cons.mp hmem with heq | hmem2
    · subst heq
      obtain ⟨i, hi, hP⟩ := addBrokenDepStep_adds names r dep hd1 hd2
      exact ⟨i, foldBroken_issues_mono names rest _ i hi, hP⟩
    · exact ih _ ⟨dep, hmem2, hd1, hd2⟩

/-- C5: when the `k`-th spec declares a `depends_on` reference whose trimmed
form is non-blank and resolves to no known slug or number,
`validate_all_specs` adds a warning-severity `broken-dependency` issue to
that spec's result, and the result's `valid` flag equals the one produced
by single-spec validation (the added warning never flips it). -/
theorem C5_broken_dependency_warning (specs : List Spec) (k : Nat)
    (hk : k < specs.length) (hk2 : k < (validateAllSpecs specs).length)
    (hbad : ∃ dep ∈ (parseFrontmatter (specs.get ⟨k, hk⟩).contentMd).1.dependsOn,
      rustTrim dep ≠ [] ∧ depExistsIn (specNamesOf specs) (rustTrim dep) = false) :
    (∃ i ∈ ((validateAllSpecs specs).get ⟨k, hk2⟩).issues,
      i.severity = IssueSeverity.warning ∧ i.code = lit "broken-dependency") ∧
    ((validateAllSpecs specs).get ⟨k, hk2⟩).valid =
      (validateSpec (specs.get ⟨k, hk⟩)).valid := by
  have hget : (validateAllSpecs specs).get ⟨k, hk2⟩ =
      ((parseFrontmatter (specs.get ⟨k, hk⟩).contentMd).1.dependsOn).foldl
        (addBrokenDepStep (specNamesOf specs)) (validateSpec (specs.get ⟨k, hk⟩)) := by
    simp only [validateAllSpecs, List.get_eq_getElem, List.getElem_map]
  rw [hget]
  exact ⟨foldBroken_adds _ _ _ hbad,
    foldBroken_valid_eq _ _ _ (validateSpec_valid_iff _)⟩

/-- C5 witness: a single spec declaring the dependency `'999'` gets the
broken-dependency warning while keeping the `valid` flag of single-spec
validation. -/
theorem C5_witness :
    (∃ i ∈ ((validateAllSpecs [c5Spec]).get ⟨0, by simp [validateAllSpecs]⟩).issues,
      i.severity = IssueSeverity.warning ∧ i.code = lit "broken-dependency") ∧
    ((validateAllSpecs [c5Spec]).get ⟨0, by simp [validateAllSpecs]⟩).valid =
      (validateSpec ([c5Spec].get ⟨0, by simp⟩)).valid :=
  C5_broken_dependency_warning [c5Spec] 0 (by simp) (by simp [validateAllSpecs])
    ⟨lit "999", by decide, by decide, by decide⟩

theorem splitWhitespaceGo_length_pos (cur : Text) (h : cur ≠ []) (u : Text) :
    1 ≤ (splitWhitespaceGo cur u).length := by
  induction u generalizing cur with
  | nil => simp [splitWhitespaceGo, h]
  | cons c cs ih =>
    simp only [splitWhitespaceGo]
    split
    · simp
    · exact ih (c :: cur) (by simp)

theorem splitWhitespaceGo_append_length (t u : Text) (cur : Text) :
    (splitWhitespaceGo cur t).length ≤ (splitWhitespaceGo cur (t ++ u)).length := by
  induction t generalizing cur with
  | nil =>
    by_cases hc : cur = []
    · simp [splitWhitespaceGo, hc]
    · have hpos := splitWhitespaceGo_length_pos cur hc u
      simpa [splitWhitespaceGo, hc] using hpos
  | cons c cs ih =>
    simp only [List.cons_append, splitWhitespaceGo]
    split
    · split
      · exact ih []
      · simpa using ih []
    · exact ih (c :: cur)

theorem wordCount_le_append (t u : Text) : wordCount t ≤ wordCount (t ++ u) :=
  splitWhitespaceGo_append_length t u []

theorem specialCharCount_le_append (t u : Text) :
    specialCharCount t ≤ specialCharCount (t ++ u) := by
  unfold specialCharCount
  rw [List.countP_append]
  omega

/-- C7: the token estimate equals
`⌈word_count * 1.3 + special_char_count * 0.5⌉` (exact arithmetic; the
source's `f64` computation produces the same integer, see the module
comment), is a pure function of the text, and is monotone under appending:
`estimate_tokens t ≤ estimate_tokens (t ++ u)`. -/
theorem C7_token_estimate (t u : Text) :
    estimateTokens t =
      ⌈(wordCount t : ℚ) * (13 / 10) + (specialCharCount t : ℚ) * (1 / 2)⌉ ∧
    estimateTokens t ≤ estimateTokens (t ++ u) := by
  refine ⟨rfl, ?_⟩
  unfold estimateTokens
  apply Int.ceil_le_ceil
  have h1 : (wordCount t : ℚ) ≤ (wordCount (t ++ u) : ℚ) := by
    exact_mod_cast wordCount_le_append t u
  have h2 : (specialCharCount t : ℚ) ≤ (specialCharCount (t ++ u) : ℚ) := by
    exact_mod_cast specialCharCount_le_append t u
  have h3 := mul_le_mul_of_nonneg_right h1 (by norm_num : (0 : ℚ) ≤ 13 / 10)
  have h4 := mul_le_mul_of_nonneg_right h2 (by norm_num : (0 : ℚ) ≤ 1 / 2)
  linarith

theorem lit_nl_dashes : lit "\n---" = '\n' :: lit "---" := rfl

theorem joinLines_nil : joinLines [] = [] := rfl

theorem joinLines_single (l : Text) : joinLines [l] = l := by
  simp [joinLines, List.intercalate]

theorem joinLines_cons (l : Text) (ys : List Text) (h : ys ≠ []) :
    joinLines (l :: ys) = l ++ '\n' :: joinLines ys := by
  cases ys with
  | nil => exact absurd rfl h
  | cons y ys' =>
    simp [joinLines, List.intercalate, List.intersperse]

theorem joinLines_append_single (ys : List Text) (x : Text) (h : ys ≠ []) :
    joinLines (ys ++ [x]) = joinLines ys ++ '\n' :: x := by
  induction ys with
  | nil => exact absurd rfl h
  | cons l ys' ih =>
    cases ys' with
    | nil => simp [joinLines_single, joinLines_cons]
    | cons y ys'' =>
      rw [List.cons_append, joinLines_cons l (y :: ys'' ++ [x]) (by simp),
        joinLines_cons l (y :: ys'') (by simp), ih (by simp)]
      simp

theorem mem_joinLines {a : Char} {ys : List Text} (h : a ∈ joinLines ys) :
    a = '\n' ∨ ∃ l ∈ ys, a ∈ l := by
  induction ys with
  | nil => simp [joinLines, List.intercalate] at h
  | cons l ys' ih =>
    cases ys' with
    | nil =>
      rw [joinLines_single] at h
      exact Or.inr ⟨l, by simp, h⟩
    | cons y ys'' =>
      rw [joinLines_cons l (y :: ys'') (by simp)] at h
      rcases List.mem_append.mp h with hmem | hmem
      · exact Or.inr ⟨l, by simp, hmem⟩
      · rcases List.mem_cons.mp hmem with heq | hmem2
        · exact Or.inl heq
        · rcases ih hmem2 with hnl | ⟨l2, hl2, hal2⟩
          · exact Or.inl hnl
          · exact Or.inr ⟨l2, by simp [hl2], hal2⟩

theorem isPrefixOf_append_cons {p : Text} (c : Char) (hc : c ∉ p) :
    ∀ {l rest : Text}, p.isPrefixOf (l ++ c :: rest) = true → p.isPrefixOf l = true := by
  induction p with
  | nil => intro l rest _; simp [List.isPrefixOf]
  | cons q p' ih =>
    intro l rest h
    cases l with
    | nil =>
      simp only [List.nil_append, List.isPrefixOf, Bool.and_eq_true, beq_iff_eq] at h
      exact absurd h.1 (by rintro rfl; exact hc (by simp))
    | cons a l' =>
      simp only [List.cons_append, List.isPrefixOf, Bool.and_eq_true] at h ⊢
      exact ⟨h.1, ih (fun hm => hc (by simp [hm])) h.2⟩

theorem not_dash_prefix_append {l : Text} (rest : Text)
    (h1 : ¬ (lit "---").isPrefixOf l = true) :
    ¬ (lit "---").isPrefixOf (l ++ '\n' :: rest) = true :=
  fun h => h1 (isPrefixOf_append_cons '\n' (by decide) h)

theorem findSub_cons_neg {pat : Text} {c : Char} {X : Text}
    (h : pat.isPrefixOf (c :: X) = false) :
    findSub pat (c :: X) = (findSub pat X).map (· + 1) := by
  conv_lhs => rw [findSub.eq_def]
  rw [if_neg (by simp [h])]

theorem findSub_skip {pat : Text} {c0 : Char} {pat' : Text}
    (hp : pat = c0 :: pat') :
    ∀ (l s : Text), c0 ∉ l →
      findSub pat (l ++ s) = (findSub pat s).map (· + l.length) := by
  intro l
  induction l with
  | nil =>
    intro s _
    cases hf : findSub pat s <;> simp [hf]
  | cons a l' ih =>
    intro s hc
    have hne : pat.isPrefixOf (a :: (l' ++ s)) = false := by
      subst hp
      simp only [List.isPrefixOf, Bool.and_eq_false_iff]
      left
      simp only [beq_eq_false_iff_ne, ne_eq]
      rintro rfl
      exact hc (by simp)
    rw [List.cons_append, findSub_cons_neg hne,
      ih s (fun hm => hc (by simp [hm]))]
    cases hf : findSub pat s <;> simp [hf]
    omega

theorem isPrefixOf_append_self (p t : Text) : p.isPrefixOf (p ++ t) = true := by
  induction p with
  | nil => simp [List.isPrefixOf]
  | cons a p' ih => simp [List.isPrefixOf, ih]

theorem findSub_join (ys : List Text) (tail : Text)
    (h : ∀ l ∈ ys, '\n' ∉ l ∧ ¬ (lit "---").isPrefixOf l = true) :
    findSub (lit "\n---") (joinLines ys ++ (lit "\n---" ++ tail)) =
      some (joinLines ys).length := by
  induction ys with
  | nil =>
    rw [joinLines_nil, List.nil_append]
    conv_lhs => rw [findSub.eq_def]
    rw [if_pos (by exact_mod_cast isPrefixOf_append_self (lit "\n---") tail)]
    rfl
  | cons l ys' ih =>
    have hl := h l (by simp)
    cases ys' with
    | nil =>
      rw [joinLines_single, findSub_skip lit_nl_dashes l (lit "\n---" ++ tail) hl.1]
      conv_lhs => rw [findSub.eq_def]
      rw [if_pos (by exact_mod_cast isPrefixOf_append_self (lit "\n---") tail)]
      simp [joinLines_single]
    | cons l2 ys'' =>
      have hl2 := h l2 (by simp)
      rw [joinLines_cons l (l2 :: ys'') (by simp)]
      have hstep : (l ++ '\n' :: joinLines (l2 :: ys'')) ++ (lit "\n---" ++ tail) =
          l ++ ('\n' :: (joinLines (l2 :: ys'') ++ (lit "\n---" ++ tail))) := by
        simp
      rw [hstep, findSub_skip lit_nl_dashes l _ hl.1]
      have hX : ∃ R : Text,
          joinLines (l2 :: ys'') ++ (lit "\n---" ++ tail) = l2 ++ '\n' :: R := by
        cases ys'' with
        | nil =>
          refine ⟨lit "---" ++ tail, ?_⟩
          rw [joinLines_single, lit_nl_dashes]
          simp
        | cons l3 ys3 =>
          refine ⟨joinLines (l3 :: ys3) ++ (lit "\n---" ++ tail), ?_⟩
          rw [joinLines_cons l2 (l3 :: ys3) (by simp)]
          simp
      obtain ⟨R, hR⟩ := hX
      have hnp : (lit "\n---").isPrefixOf
          ('\n' :: (joinLines (l2 :: ys'') ++ (lit "\n---" ++ tail))) = false := by
        rw [hR, lit_nl_dashes]
        simp only [List.isPrefixOf, beq_self_eq_true, Bool.true_and]
        exact Bool.eq_false_iff.mpr (not_dash_prefix_append R hl2.2)
      rw [findSub_cons_neg hnp, ih (fun x hx => h x (by simp [hx]))]
      simp
      omega

theorem splitChar_ne_nil (c : Char) (t : Text) : splitChar c t ≠ [] := by
  induction t with
  | nil => simp [splitChar]
  | cons a rest ih =>
    simp only [splitChar]
    split
    · simp
    · split
      · simp
      · simp

theorem splitChar_no_sep (c : Char) (t : Text) (h : c ∉ t) :
    splitChar c t = [t] := by
  induction t with
  | nil => rfl
  | cons a rest ih =>
    have ha : a ≠ c := by rintro rfl; exact h (by simp)
    simp only [splitChar]
    rw [if_neg ha, ih (fun hm => h (by simp [hm]))]

theorem splitChar_append_sep (c : Char) (l s : Text) (h : c ∉ l) :
    splitChar c (l ++ c :: s) = l :: splitChar c s := by
  induction l with
  | nil =>
    simp [splitChar]
  | cons a l' ih =>
    have ha : a ≠ c := by rintro rfl; exact h (by simp)
    simp only [List.cons_append, splitChar]
    rw [if_neg ha]
    simp only [List.append_eq]
    rw [ih (fun hm => h (by simp [hm]))]

theorem splitChar_joinLines (ys : List Text) (h : ∀ l ∈ ys, '\n' ∉ l)
    (hne : ys ≠ []) : splitChar '\n' (joinLines ys) = ys := by
  induction ys with
  | nil => exact absurd rfl hne
  | cons l ys' ih =>
    cases ys' with
    | nil => rw [joinLines_single]; exact splitChar_no_sep '\n' l (h l (by simp))
    | cons y ys'' =>
      rw [joinLines_cons l (y :: ys'') (by simp),
        splitChar_append_sep '\n' l (joinLines (y :: ys'')) (h l (by simp)),
        ih (fun x hx => h x (by simp [hx])) (by simp)]

theorem stripCR_no_cr (l : Text) (h : '\r' ∉ l) : stripCR l = l := by
  unfold stripCR
  split
  · rename_i rest heq
    have : '\r' ∈ l := by
      rw [← List.mem_reverse, heq]
      simp
    exact absurd this h
  · rfl

theorem rustLines_joinLines (ys : List Text)
    (h : ∀ l ∈ ys, '\n' ∉ l ∧ '\r' ∉ l) (hne : ys ≠ [])
    (hlast : ys.getLast? ≠ some []) : rustLines (joinLines ys) = ys := by
  unfold rustLines
  rw [splitChar_joinLines ys (fun l hl => (h l hl).1) hne]
  show List.map stripCR (if ys.getLast? = some [] then ys.dropLast else ys) = ys
  rw [if_neg hlast]
  calc ys.map stripCR = ys.map id := List.map_congr_left
        (fun l hl => stripCR_no_cr l (h l hl).2)
    _ = ys := List.map_id ys


theorem updateFrontmatterField_ok (ys : List Text) (body field value : Text)
    (hys : ∀ l ∈ ys, cleanLine l)
    (hne : ys ≠ []) (hlast : ys.getLast? ≠ some []) :
    updateFrontmatterField (lit "---\n" ++ joinLines ys ++ lit "\n---" ++ body)
      field value =
    .ok (lit "---\n" ++ joinLines (applyField ys field value) ++ lit "\n---" ++ body) := by
  have hcontent : lit "---\n" ++ joinLines ys ++ lit "\n---" ++ body =
      '-' :: '-' :: '-' :: '\n' :: (joinLines ys ++ (lit "\n---" ++ body)) := by
    rw [show lit "---\n" = '-' :: '-' :: '-' :: '\n' :: ([] : Text) from rfl]
    simp
  rw [hcontent]
  have hfind := findSub_join ys body (fun l hl => ⟨(hys l hl).1, (hys l hl).2.2⟩)
  simp only [updateFrontmatterField, List.drop_succ_cons, List.drop_zero]
  rw [if_neg (by simp [List.isPrefixOf])]
  rw [if_pos (by rw [show lit "\n" = '\n' :: ([] : Text) from rfl]; simp [List.isPrefixOf])]
  rw [hfind]
  have htake : (joinLines ys ++ (lit "\n---" ++ body)).take (joinLines ys).length =
      joinLines ys := List.take_left _ _
  have hlen4 : (joinLines ys ++ lit "\n---").length = (joinLines ys).length + 4 := by
    simp [show (lit "\n---").length = 4 from rfl]
  have hdrop : (joinLines ys ++ (lit "\n---" ++ body)).drop ((joinLines ys).length + 4) =
      body := by
    rw [← List.append_assoc, List.drop_left' hlen4]
  split
  · rename_i heq
    exact absurd heq (by simp)
  · rename_i endPos heq
    have hE : endPos = (joinLines ys).length := by
      injection heq with heq2
      exact heq2.symm
    subst hE
    rw [htake, hdrop,
      rustLines_joinLines ys (fun l hl => ⟨(hys l hl).1, (hys l hl).2.1⟩) hne hlast]
    simp only [applyField]
    cases hfound : (replaceFieldLine (field ++ [':']) (field ++ lit ": " ++ value) ys).2
    · simp only [Bool.false_eq_true, if_false]
      rw [joinLines_append_single ys (field ++ lit ": " ++ value) hne]
    · simp only [if_true]

theorem parseFrontmatter_structured (ys : List Text) (tail : Text) (fm : Frontmatter)
    (hys : ∀ l ∈ ys, cleanLine l)
    (hdec : decodeYaml (joinLines ys) = .ok fm) :
    parseFrontmatter (lit "---\n" ++ joinLines ys ++ lit "\n---" ++ tail) =
      (fm, tail.dropWhile (fun c => c = '\n' ∨ c = '\r')) := by
  have hcontent : lit "---\n" ++ joinLines ys ++ lit "\n---" ++ tail =
      '-' :: '-' :: '-' :: '\n' :: (joinLines ys ++ (lit "\n---" ++ tail)) := by
    rw [show lit "---\n" = '-' :: '-' :: '-' :: '\n' :: ([] : Text) from rfl]
    simp
  rw [hcontent]
  have hfind := findSub_join ys tail (fun l hl => ⟨(hys l hl).1, (hys l hl).2.2⟩)
  have hnr : (lit "\r\n").isPrefixOf
      (joinLines ys ++ (lit "\n---" ++ tail)) = false := by
    cases hJ : joinLines ys with
    | nil =>
      rw [show lit "\r\n" = '\r' :: '\n' :: ([] : Text) from rfl, List.nil_append,
        lit_nl_dashes]
      simp [List.isPrefixOf]
    | cons a J2 =>
      have ha : a ≠ '\r' := by
        have hmem : a ∈ joinLines ys := by rw [hJ]; simp
        rcases mem_joinLines hmem with hnl | ⟨l, hl, hal⟩
        · rw [hnl]; decide
        · intro hra
          exact (hys l hl).2.1 (hra ▸ hal)
      rw [show lit "\r\n" = '\r' :: '\n' :: ([] : Text) from rfl]
      simp only [List.cons_append, List.isPrefixOf, Bool.and_eq_false_iff]
      left
      simp [ha.symm]
  have h0 : List.isPrefixOf (lit "---")
      ('-' :: '-' :: '-' :: '\n' :: (joinLines ys ++ (lit "\n---" ++ tail))) = true := by
    rw [show lit "---" = '-' :: '-' :: '-' :: ([] : Text) from rfl]
    simp [List.isPrefixOf]
  have h1 : List.isPrefixOf (lit "\n")
      ('\n' :: (joinLines ys ++ (lit "\n---" ++ tail))) = true := by
    rw [show lit "\n" = '\n' :: ([] : Text) from rfl]
    simp [List.isPrefixOf]
  simp only [parseFrontmatter, List.drop_succ_cons, List.drop_zero]
  simp only [h0, h1, hnr, not_true_eq_false, Bool.false_eq_true, if_false, if_true]
  rw [hfind]
  have htake : (joinLines ys ++ (lit "\n---" ++ tail)).take (joinLines ys).length =
      joinLines ys := List.take_left _ _
  have hlen4 : (joinLines ys ++ lit "\n---").length = (joinLines ys).length + 4 := by
    simp [show (lit "\n---").length = 4 from rfl]
  have hdrop : (joinLines ys ++ (lit "\n---" ++ tail)).drop ((joinLines ys).length + 4) =
      tail := by
    rw [← List.append_assoc, List.drop_left' hlen4]
  split
  · rename_i endPos heq
    have hE : endPos = (joinLines ys).length := by
      injection heq with heq2
      exact heq2.symm
    subst hE
    rw [htake, hdrop, hdec]
  · rename_i heq
    exact absurd heq (by simp)

/-- C4 (amended): on a document whose frontmatter region is the lines `ys`
(single-line, none starting with `---`), the metadata block decoded by
`parse_frontmatter` ends at the first subsequent line that starts with
`---` — even when that line carries further characters, which then begin
the body after the newline/carriage-return run is skipped.  The claim's
original reading (block runs to the first line consisting solely of `---`)
is refuted by `C4_counterexample`. -/
theorem C4_block_ends_at_dash_line (ys : List Text) (tail : Text) (fm : Frontmatter)
    (hys : ∀ l ∈ ys, cleanLine l)
    (hdec : decodeYaml (joinLines ys) = .ok fm) :
    parseFrontmatter (lit "---\n" ++ joinLines ys ++ lit "\n---" ++ tail) =
      (fm, tail.dropWhile (fun c => c = '\n' ∨ c = '\r')) :=
  parseFrontmatter_structured ys tail fm hys hdec

/-- C4 witness: the document `---\nstatus: draft\n---junk\nbody` decodes the
block `status: draft` and starts the body at `junk`. -/
theorem C4_witness :
    parseFrontmatter (lit "---\n" ++ joinLines [lit "status: draft"] ++
        lit "\n---" ++ lit "junk\nbody") =
      ({ status := some (lit "draft") },
        (lit "junk\nbody").dropWhile (fun c => c = '\n' ∨ c = '\r')) :=
  C4_block_ends_at_dash_line [lit "status: draft"] (lit "junk\nbody")
    { status := some (lit "draft") }
    (by intro l hl
        rw [List.mem_singleton] at hl
        subst hl
        exact ⟨by decide, by decide, by decide⟩)
    (by rfl)

theorem replaceFieldLine_length (pat new : Text) (ls : List Text) :
    ((replaceFieldLine pat new ls).1).length = ls.length := by
  induction ls with
  | nil => rfl
  | cons l ls' ih =>
    simp only [replaceFieldLine]
    split
    · simp
    · simp [ih]

theorem replaceFieldLine_mem (pat new : Text) (ls : List Text) :
    ∀ x ∈ (replaceFieldLine pat new ls).1, x ∈ ls ∨ x = new := by
  induction ls with
  | nil => intro x hx; exact absurd hx (by simp [replaceFieldLine])
  | cons l ls' ih =>
    intro x hx
    simp only [replaceFieldLine] at hx
    split at hx
    · rcases List.mem_cons.mp hx with heq | hmem
      · exact Or.inr heq
      · exact Or.inl (by simp [hmem])
    · rcases List.mem_cons.mp hx with heq | hmem
      · exact Or.inl (by simp [heq])
      · rcases ih x hmem with hmem2 | heq2
        · exact Or.inl (by simp [hmem2])
        · exact Or.inr heq2

theorem applyField_mem (ls : List Text) (field value : Text) :
    ∀ x ∈ applyField ls field value, x ∈ ls ∨ x = field ++ lit ": " ++ value := by
  intro x hx
  simp only [applyField] at hx
  split at hx
  · exact replaceFieldLine_mem _ _ ls x hx
  · rcases List.mem_append.mp hx with hmem | hmem
    · exact Or.inl hmem
    · exact Or.inr (by simpa using hmem)

theorem applyField_ne_nil (ls : List Text) (field value : Text) (h : ls ≠ []) :
    applyField ls field value ≠ [] := by
  simp only [applyField]
  split
  · intro hcon
    have := replaceFieldLine_length (field ++ [':']) (field ++ lit ": " ++ value) ls
    rw [hcon] at this
    exact h (List.eq_nil_of_length_eq_zero this.symm)
  · simp

theorem fieldLine_ne_nil (field value : Text) : field ++ lit ": " ++ value ≠ [] := by
  intro h
  have : (field ++ lit ": " ++ value).length = 0 := by rw [h]; rfl
  simp [show (lit ": ").length = 2 from rfl] at this

theorem replaceFieldLine_getLast (pat new : Text) (ls : List Text) (h : ls ≠ []) :
    ((replaceFieldLine pat new ls).1).getLast? = ls.getLast? ∨
      ((replaceFieldLine pat new ls).1).getLast? = some new := by
  induction ls with
  | nil => exact absurd rfl h
  | cons l ls' ih =>
    simp only [replaceFieldLine]
    split
    · cases ls' with
      | nil => exact Or.inr (by simp)
      | cons y ys =>
        exact Or.inl (by rw [List.getLast?_cons_cons, List.getLast?_cons_cons])
    · cases hls : ls' with
      | nil =>
        subst hls
        exact Or.inl (by simp [replaceFieldLine])
      | cons y ys =>
        subst hls
        have hlen := replaceFieldLine_length pat new (y :: ys)
        cases hrep : (replaceFieldLine pat new (y :: ys)).1 with
        | nil => rw [hrep] at hlen; simp at hlen
        | cons z zs =>
          rcases ih (by simp) with hcase | hcase
          · left
            rw [hrep] at hcase
            show (l :: z :: zs : List Text).getLast? = (l :: y :: ys).getLast?
            rw [List.getLast?_cons_cons, hcase, List.getLast?_cons_cons]
          · right
            rw [hrep] at hcase
            show (l :: z :: zs : List Text).getLast? = some new
            rw [List.getLast?_cons_cons, hcase]

theorem applyField_getLast_ne_nil (ls : List Text) (field value : Text)
    (h : ls ≠ []) (hlast : ls.getLast? ≠ some []) :
    (applyField ls field value).getLast? ≠ some [] := by
  simp only [applyField]
  split
  · rcases replaceFieldLine_getLast (field ++ [':']) (field ++ lit ": " ++ value) ls h
      with hcase | hcase
    · rw [hcase]; exact hlast
    · rw [hcase]
      intro hcon
      injection hcon with h2
      exact fieldLine_ne_nil field value h2
  · rw [List.getLast?_concat]
    intro hcon
    injection hcon with h2
    exact fieldLine_ne_nil field value h2

theorem replaceFieldLine_getD (pat new : Text) (ls : List Text) (k : Nat)
    (h : pat.isPrefixOf (trimStart (ls.getD k [])) = false) :
    ((replaceFieldLine pat new ls).1).getD k [] = ls.getD k [] := by
  induction ls generalizing k with
  | nil => rfl
  | cons l ls' ih =>
    simp only [replaceFieldLine]
    split
    · rename_i hmatch
      cases k with
      | zero =>
        simp only [List.getD_cons_zero] at h
        exact absurd hmatch (by simp [h])
      | succ k2 => simp
    · cases k with
      | zero => simp
      | succ k2 =>
        simp only [List.getD_cons_succ] at h
        simpa using ih k2 h

theorem applyField_length_ge (ls : List Text) (field value : Text) :
    ls.length ≤ (applyField ls field value).length := by
  simp only [applyField]
  split
  · rw [replaceFieldLine_length]
  · simp

theorem applyField_getD (ls : List Text) (field value : Text) (k : Nat)
    (hk : k < ls.length) (h : isFieldLine field (ls.getD k []) = false) :
    (applyField ls field value).getD k [] = ls.getD k [] := by
  simp only [applyField]
  split
  · exact replaceFieldLine_getD _ _ ls k h
  · exact List.getD_append _ _ _ _ hk

theorem dash_prefix_cons_false (a : Char) (X : Text) (ha : a ≠ '-') :
    (lit "---").isPrefixOf (a :: X) = false := by
  rw [show lit "---" = '-' :: '-' :: '-' :: ([] : Text) from rfl]
  simp only [List.isPrefixOf, Bool.and_eq_false_iff]
  left
  simp [Ne.symm ha]

theorem cleanLine_status_line (v : Text) (h1 : '\n' ∉ v) (h2 : '\r' ∉ v) :
    cleanLine (lit "status" ++ lit ": " ++ v) := by
  have hshape : lit "status" ++ lit ": " ++ v = 's' :: (lit "tatus: " ++ v) := by
    rw [show lit "status" ++ lit ": " = 's' :: lit "tatus: " from rfl]
    simp
  rw [hshape]
  refine ⟨?_, ?_, ?_⟩
  · intro hm
    rcases List.mem_cons.mp hm with heq | hm2
    · exact absurd heq (by decide)
    · rcases List.mem_append.mp hm2 with hm3 | hm3
      · exact absurd hm3 (by decide)
      · exact h1 hm3
  · intro hm
    rcases List.mem_cons.mp hm with heq | hm2
    · exact absurd heq (by decide)
    · rcases List.mem_append.mp hm2 with hm3 | hm3
      · exact absurd hm3 (by decide)
      · exact h2 hm3
  · rw [dash_prefix_cons_false 's' _ (by decide)]
    simp

theorem cleanLine_updated_line (v : Text) (h1 : '\n' ∉ v) (h2 : '\r' ∉ v) :
    cleanLine (lit "updated_at" ++ lit ": " ++ v) := by
  have hshape : lit "updated_at" ++ lit ": " ++ v = 'u' :: (lit "pdated_at: " ++ v) := by
    rw [show lit "updated_at" ++ lit ": " = 'u' :: lit "pdated_at: " from rfl]
    simp
  rw [hshape]
  refine ⟨?_, ?_, ?_⟩
  · intro hm
    rcases List.mem_cons.mp hm with heq | hm2
    · exact absurd heq (by decide)
    · rcases List.mem_append.mp hm2 with hm3 | hm3
      · exact absurd hm3 (by decide)
      · exact h1 hm3
  · intro hm
    rcases List.mem_cons.mp hm with heq | hm2
    · exact absurd heq (by decide)
    · rcases List.mem_append.mp hm2 with hm3 | hm3
      · exact absurd hm3 (by decide)
      · exact h2 hm3
  · rw [dash_prefix_cons_false 'u' _ (by decide)]
    simp

/-- C6: a successful `update_spec_status` on a document whose frontmatter is
a block of single-line scalar fields rewrites only the `status` line and the
`updated_at` line (appending `updated_at: '<now>'` when the field is
absent), and leaves every other frontmatter line and the entire body after
the closing delimiter byte-for-byte unchanged. -/
theorem C6_status_update_frame (ys : List Text)
    (body currentStatus newStatus now : Text) (force : Bool)
    (hys : ∀ l ∈ ys, cleanLine l) (hne : ys ≠ []) (hlast : ys.getLast? ≠ some [])
    (hstat : '\n' ∉ newStatus ∧ '\r' ∉ newStatus)
    (hnow : '\n' ∉ now ∧ '\r' ∉ now)
    (hvalid : VALID_STATUSES.contains newStatus = true)
    (hpolicy : ¬ (currentStatus = lit "draft" ∧
      (newStatus = lit "in-progress" ∨ newStatus = lit "complete") ∧ ¬ force = true)) :
    updateSpecStatusContent currentStatus
        (lit "---\n" ++ joinLines ys ++ lit "\n---" ++ body) newStatus now force =
      .ok (lit "---\n" ++
        joinLines (applyField (applyField ys (lit "status") newStatus)
          (lit "updated_at") ('\'' :: now ++ ['\''])) ++ lit "\n---" ++ body) ∧
    (∀ k, k < ys.length →
      isFieldLine (lit "status") (ys.getD k []) = false →
      isFieldLine (lit "updated_at") (ys.getD k []) = false →
      (applyField (applyField ys (lit "status") newStatus)
        (lit "updated_at") ('\'' :: now ++ ['\''])).getD k [] = ys.getD k []) := by
  have hquote1 : '\n' ∉ ('\'' :: now ++ ['\''] : Text) := by
    intro hm
    rcases List.mem_cons.mp hm with heq | hm2
    · exact absurd heq (by decide)
    · rcases List.mem_append.mp hm2 with hm3 | hm3
      · exact hnow.1 hm3
      · exact absurd hm3 (by decide)
  have hquote2 : '\r' ∉ ('\'' :: now ++ ['\''] : Text) := by
    intro hm
    rcases List.mem_cons.mp hm with heq | hm2
    · exact absurd heq (by decide)
    · rcases List.mem_append.mp hm2 with hm3 | hm3
      · exact hnow.2 hm3
      · exact absurd hm3 (by decide)
  have hys1 : ∀ l ∈ applyField ys (lit "status") newStatus, cleanLine l := by
    intro x hx
    rcases applyField_mem ys (lit "status") newStatus x hx with hmem | heq
    · exact hys x hmem
    · rw [heq]
      exact cleanLine_status_line newStatus hstat.1 hstat.2
  have hne1 : applyField ys (lit "status") newStatus ≠ [] :=
    applyField_ne_nil ys (lit "status") newStatus hne
  have hlast1 : (applyField ys (lit "status") newStatus).getLast? ≠ some [] :=
    applyField_getLast_ne_nil ys (lit "status") newStatus hne hlast
  constructor
  · unfold updateSpecStatusContent
    rw [if_neg (by simp only [not_not]; simpa using hvalid)]
    rw [if_neg hpolicy]
    rw [updateFrontmatterField_ok ys body (lit "status") newStatus hys hne hlast]
    rw [show (Except.ok (lit "---\n" ++ joinLines (applyField ys (lit "status") newStatus) ++
        lit "\n---" ++ body) : Except Text Text).bind
        (fun c1 => updateFrontmatterField c1 (lit "updated_at") ('\'' :: now ++ ['\''])) =
      updateFrontmatterField (lit "---\n" ++
        joinLines (applyField ys (lit "status") newStatus) ++ lit "\n---" ++ body)
        (lit "updated_at") ('\'' :: now ++ ['\'']) from rfl]
    exact updateFrontmatterField_ok (applyField ys (lit "status") newStatus) body
      (lit "updated_at") ('\'' :: now ++ ['\'']) hys1 hne1 hlast1
  · intro k hk h1 h2
    have e1 : (applyField ys (lit "status") newStatus).getD k [] = ys.getD k [] :=
      applyField_getD ys (lit "status") newStatus k hk h1
    have hk1 : k < (applyField ys (lit "status") newStatus).length :=
      lt_of_lt_of_le hk (applyField_length_ge ys (lit "status") newStatus)
    have h2a : isFieldLine (lit "updated_at")
        ((applyField ys (lit "status") newStatus).getD k []) = false := by
      rw [e1]; exact h2
    rw [applyField_getD (applyField ys (lit "status") newStatus) (lit "updated_at")
      ('\'' :: now ++ ['\'']) k hk1 h2a, e1]

/-- C6 witness: updating `status` to `planned` on a concrete two-field
frontmatter replaces the status line, appends the `updated_at` line, and
carries the body through verbatim. -/
theorem C6_witness :
    updateSpecStatusContent (lit "draft")
        (lit "---\n" ++ joinLines [lit "status: draft", lit "priority: high"] ++
          lit "\n---" ++ lit "\n# T\nbody") (lit "planned")
        (lit "2026-01-01T00:00:00Z") false =
      .ok (lit "---\n" ++
        joinLines (applyField (applyField [lit "status: draft", lit "priority: high"]
          (lit "status") (lit "planned")) (lit "updated_at")
          ('\'' :: lit "2026-01-01T00:00:00Z" ++ ['\''])) ++
        lit "\n---" ++ lit "\n# T\nbody") :=
  (C6_status_update_frame [lit "status: draft", lit "priority: high"] (lit "\n# T\nbody")
    (lit "draft") (lit "planned") (lit "2026-01-01T00:00:00Z") false
    (by decide) (by decide) (by decide) (by decide) (by decide) (by decide)
    (by decide)).1

theorem insertKeyed_of_not_mem (m : List (Text × List Text)) (k : Text)
    (v : List Text) (h : ∀ p ∈ m, p.1 ≠ k) :
    insertKeyed m k v = m ++ [(k, v)] := by
  unfold insertKeyed
  rw [if_neg]
  simp only [List.any_eq_true, decide_eq_true_eq, not_exists]
  intro p
  intro hcon
  exact h p hcon.1 hcon.2

theorem foldl_insertKeyed (specs : List Spec) (m : List (Text × List Text))
    (hdisj : ∀ s ∈ specs, ∀ p ∈ m, p.1 ≠ s.specName)
    (hnd : (specs.map Spec.specName).Nodup) :
    specs.foldl (fun m s => insertKeyed m s.specName s.dependsOn) m =
      m ++ specs.map (fun s => (s.specName, s.dependsOn)) := by
  induction specs generalizing m with
  | nil => simp
  | cons s rest ih =>
    rw [List.foldl_cons,
      insertKeyed_of_not_mem m s.specName s.dependsOn
        (fun p hp => hdisj s (by simp) p hp)]
    have hnd2 : ((s :: rest).map Spec.specName).Nodup := hnd
    rw [List.map_cons, List.nodup_cons] at hnd2
    rw [ih (m ++ [(s.specName, s.dependsOn)]) ?_ hnd2.2]
    · simp
    · intro t ht p hp
      rcases List.mem_append.mp hp with hp1 | hp1
      · exact hdisj t (by simp [ht]) p hp1
      · simp only [List.mem_singleton] at hp1
        subst hp1
        intro heq
        apply hnd2.1
        have : t.specName ∈ rest.map Spec.specName :=
          List.mem_map_of_mem Spec.specName ht
        rw [← heq] at this
        exact this

theorem dependencyMap_eq (specs : List Spec)
    (hnd : (specs.map Spec.specName).Nodup) :
    dependencyMap specs = specs.map (fun s => (s.specName, s.dependsOn)) := by
  unfold dependencyMap
  rw [foldl_insertKeyed specs [] (by simp) hnd]
  simp

theorem mem_requiredByOf (specs : List Spec)
    (hnd : (specs.map Spec.specName).Nodup) (a b : Spec)
    (ha : a ∈ specs) (hb : b ∈ specs) (hne : b.specName ≠ a.specName) :
    b.specName ∈ requiredByOf (dependencyMap specs) a ↔
      ∃ dep ∈ b.dependsOn, dependencyMatches dep a.specName a.specNumber = true := by
  rw [dependencyMap_eq specs hnd]
  unfold requiredByOf
  constructor
  · intro hmem
    rcases List.mem_map.mp hmem with ⟨p, hpfilter, hp1⟩
    rcases List.mem_filter.mp hpfilter with ⟨hpmem, hpcond⟩
    rcases List.mem_map.mp hpmem with ⟨c, hc, hcp⟩
    have hcb : c = b := by
      apply List.inj_on_of_nodup_map hnd hc hb
      rw [← hcp] at hp1
      exact hp1
    subst hcb
    simp only [decide_eq_true_eq, List.any_eq_true] at hpcond
    rcases hpcond.2 with ⟨dep, hdep, hmatch⟩
    rw [← hcp] at hdep
    exact ⟨dep, hdep, hmatch⟩
  · rintro ⟨dep, hdep, hmatch⟩
    apply List.mem_map.mpr
    refine ⟨(b.specName, b.dependsOn), ?_, rfl⟩
    apply List.mem_filter.mpr
    refine ⟨List.mem_map.mpr ⟨b, hb, rfl⟩, ?_⟩
    simp only [decide_eq_true_eq, List.any_eq_true]
    exact ⟨hne, dep, hdep, hmatch⟩

theorem buildRequiredBy_map_name (specs : List Spec) :
    (buildRequiredBy specs).map Spec.specName = specs.map Spec.specName := by
  unfold buildRequiredBy
  rw [List.map_map]
  rfl

theorem buildRequiredBy_inverse (specs : List Spec)
    (hnd : (specs.map Spec.specName).Nodup) :
    ∀ a ∈ buildRequiredBy specs, ∀ b ∈ buildRequiredBy specs, a ≠ b →
      (b.specName ∈ a.requiredBy ↔
        ∃ dep ∈ b.dependsOn, dependencyMatches dep a.specName a.specNumber = true) := by
  intro a ha b hb hne
  unfold buildRequiredBy at ha hb
  rcases List.mem_map.mp ha with ⟨a0, ha0, haeq⟩
  rcases List.mem_map.mp hb with ⟨b0, hb0, hbeq⟩
  subst haeq
  subst hbeq
  have hne0 : b0.specName ≠ a0.specName := by
    intro heq
    exact hne (by rw [List.inj_on_of_nodup_map hnd ha0 hb0 heq.symm])
  exact mem_requiredByOf specs hnd a0 b0 ha0 hb0 hne0

/-- C1 (amended): over every `load_all` result whose loaded specs have
pairwise-distinct `spec_name`s, `required_by` is the exact inverse of
`depends_on` under the resolver's matching rule: for distinct loaded specs
A and B, B's name appears in `A.required_by` iff some entry of
`B.depends_on` matches A.  Without the distinct-name hypothesis the
statement fails (`C1_counterexample`): a root spec and an archived spec may
share a directory name and collide in the name-keyed dependency map. -/
theorem C1_required_by_inverse_of_nodup (pid : Text) (root : List DirEntry)
    (arch : Option (List DirEntry))
    (hnd : ((loadAll pid root arch).map Spec.specName).Nodup) :
    ∀ a ∈ loadAll pid root arch, ∀ b ∈ loadAll pid root arch, a ≠ b →
      (b.specName ∈ a.requiredBy ↔
        ∃ dep ∈ b.dependsOn, dependencyMatches dep a.specName a.specNumber = true) := by
  have hnd2 : ((stableSort (fun a b => optIntLt a.specNumber b.specNumber)
      (loadSpecsFromDir pid root false ++
        (match arch with
         | some es => loadSpecsFromDir pid es true
         | none => []))).map Spec.specName).Nodup := by
    rw [← buildRequiredBy_map_name]
    exact hnd
  exact buildRequiredBy_inverse _ hnd2

/-- C1 witness: a two-spec root with distinct names where `002-second`
depends on `001-first`; the equivalence holds for the loaded pair. -/
theorem C1_witness :
    w1SpecB.specName ∈ w1SpecA.requiredBy ↔
      ∃ dep ∈ w1SpecB.dependsOn,
        dependencyMatches dep w1SpecA.specName w1SpecA.specNumber = true :=
  C1_required_by_inverse_of_nodup (lit "p") w1Root none (by decide)
    w1SpecA (by decide) w1SpecB (by decide) (by decide)
